import Mathlib

/-!
Verification development for the Refunge interpreter (a Befunge-98
implementation in Rust).  Rust data structures and functions are shallowly
embedded as Lean definitions: `i32` values become `Int` with explicit
two's-complement wrapping where the source can overflow, `usize` becomes
`Nat`, `VecDeque` becomes `List` (front = head), and fallible operations
return `Option`.  Each theorem settles one claim about the program.
-/

namespace Refunge

/-! ## Machine integers -/

/-- Source constant `i32::MIN`. -/
def I32_MIN : Int := -(2 ^ 31)

/-- Source constant `i32::MAX`. -/
def I32_MAX : Int := 2 ^ 31 - 1

/-- Two's-complement wrap of a mathematical integer into the `i32` range,
modelling Rust release-mode wrapping of an overflowing `i32` operation. -/
def wrap32 (z : Int) : Int := (z + 2 ^ 31) % 2 ^ 32 - 2 ^ 31

/-- Source fn `i32::saturating_add` (Rust: computes `self + rhs`, saturating
at the numeric bounds instead of overflowing). -/
def satAdd (a b : Int) : Int := max I32_MIN (min I32_MAX (a + b))

/-- Source fn `i32::saturating_sub`. -/
def satSub (a b : Int) : Int := max I32_MIN (min I32_MAX (a - b))

/-- Source fn `i32::saturating_mul`. -/
def satMul (a b : Int) : Int := max I32_MIN (min I32_MAX (a * b))

/-- Source fn `i32::checked_div` (Rust: `None` if `rhs == 0` or the division
`i32::MIN / -1` overflows, otherwise the truncated quotient). -/
def checkedDiv (a b : Int) : Option Int :=
  if b = 0 ∨ (a = I32_MIN ∧ b = -1) then none else some (a.tdiv b)

/-- Source fn `i32::checked_rem` (Rust: `None` if `rhs == 0` or if
`i32::MIN % -1` would overflow, otherwise the truncated remainder). -/
def checkedRem (a b : Int) : Option Int :=
  if b = 0 ∨ (a = I32_MIN ∧ b = -1) then none else some (a.tmod b)

/-- Source cast `v as u32` for an `i32` value `v`: reinterpret the 32-bit
pattern as an unsigned integer. -/
def toU32 (v : Int) : Nat := (v % 2 ^ 32).toNat

/-- Source fn `char::from_u32` (Rust std: `Some` exactly when the argument is
a Unicode scalar value, i.e. below `0xD800` or in `0xE000 ..= 0x10FFFF`). -/
def charFromU32 (n : Nat) : Option Char :=
  if h : n.isValidChar then some (Char.ofNatAux n h) else none

/-! ## `src/vector.rs` -/

/-- Source struct `FungeVector` (`src/vector.rs`): a 2-dimensional vector of
`i32` coordinates.  Field `x` is the source's `.0`, `y` is `.1`. -/
structure FungeVector where
  x : Int
  y : Int
deriving DecidableEq, Repr

/-- Source fn `FungeVector::invert` (`src/vector.rs`): negate each dimension
(`i32` multiplication by `-1`, wrapping on `i32::MIN`). -/
def FungeVector.invert (v : FungeVector) : FungeVector :=
  ⟨wrap32 (-v.x), wrap32 (-v.y)⟩

/-- Source fn `FungeVector::is_negative` (`src/vector.rs`). -/
def FungeVector.is_negative (v : FungeVector) : Bool :=
  v.x < 0 || v.y < 0

/-- Source `impl Add for FungeVector` (`src/vector.rs`): componentwise `i32`
addition. -/
def FungeVector.add (v w : FungeVector) : FungeVector :=
  ⟨wrap32 (v.x + w.x), wrap32 (v.y + w.y)⟩

/-- Source constant `ORIGIN` (`src/vector.rs`). -/
def ORIGIN : FungeVector := ⟨0, 0⟩

/-- Source constant `EAST` (`src/vector.rs`). -/
def EAST : FungeVector := ⟨1, 0⟩

/-! ## `src/stack.rs` -/

/-- Source struct `FungeStack` (`src/stack.rs`): a `VecDeque` wrapper with
queue/invert mode flags.  The deque is modelled as a list whose head is the
deque's front. -/
structure FungeStack (α : Type) where
  inner : List α
  queue_mode : Bool
  invert_mode : Bool
deriving DecidableEq, Repr

instance {α : Type} : Inhabited (FungeStack α) := ⟨⟨[], false, false⟩⟩

/-- Source fn `FungeStack::push` (`src/stack.rs`): push to the back, or to
the front when `invert_mode` is set. -/
def FungeStack.push {α : Type} (s : FungeStack α) (v : α) : FungeStack α :=
  if s.invert_mode then { s with inner := v :: s.inner }
  else { s with inner := s.inner ++ [v] }

/-- Source fn `FungeStack::pop` (`src/stack.rs`): pop from the back, or from
the front when `queue_mode` is set; yields the element type's default value
on an empty stack (`unwrap_or_default`), which leaves the deque unchanged. -/
def FungeStack.pop {α : Type} [Inhabited α] (s : FungeStack α) :
    α × FungeStack α :=
  if s.queue_mode then
    ((s.inner.head?).getD default, { s with inner := s.inner.tail })
  else
    ((s.inner.getLast?).getD default, { s with inner := s.inner.dropLast })

/-- Source fn `FungeStack::clear` (`src/stack.rs`). -/
def FungeStack.clear {α : Type} (s : FungeStack α) : FungeStack α :=
  { s with inner := [] }

/-- Source fn `FungeStack::len` (`src/stack.rs`). -/
def FungeStack.len {α : Type} (s : FungeStack α) : Nat :=
  s.inner.length

/-- Source fn `FungeStack::push_front` (`src/stack.rs`). -/
def FungeStack.push_front {α : Type} (s : FungeStack α) (v : α) :
    FungeStack α :=
  { s with inner := v :: s.inner }

/-- Source fn `FungeStack::pop_front` (`src/stack.rs`), with the
`Option`-returning deque behaviour flattened (on empty, nothing changes). -/
def FungeStack.pop_front {α : Type} [Inhabited α] (s : FungeStack α) :
    α × FungeStack α :=
  ((s.inner.head?).getD default, { s with inner := s.inner.tail })

/-- Source `impl Index<usize> for FungeStack` (`src/stack.rs`): index into
the underlying deque (front = index 0). -/
def FungeStack.get {α : Type} [Inhabited α] (s : FungeStack α) (i : Nat) :
    α :=
  s.inner.getD i default

/-- Source `impl IndexMut<usize> for FungeStack` (`src/stack.rs`), as a
functional update of the element at index `i`. -/
def FungeStack.setIdx {α : Type} (s : FungeStack α) (i : Nat) (v : α) :
    FungeStack α :=
  { s with inner := s.inner.set i v }

/-! ## `src/data.rs` -/

/-- Source enum `DataMode` (`src/data.rs`). -/
inductive DataMode where
  | stack
  | queue
deriving DecidableEq, Repr

/-- Source struct `FungeData` (`src/data.rs`): a `VecDeque<i32>` plus a
stack/queue mode. -/
structure FungeData where
  inner : List Int
  mode : DataMode
deriving DecidableEq, Repr

/-- Source fn `FungeData::pop` (`src/data.rs`): pop from the back in stack
mode, from the front in queue mode, `0` when empty (`unwrap_or(0)`). -/
def FungeData.pop (d : FungeData) : Int × FungeData :=
  match d.mode with
  | .stack => ((d.inner.getLast?).getD 0, { d with inner := d.inner.dropLast })
  | .queue => ((d.inner.head?).getD 0, { d with inner := d.inner.tail })

/-! ## `src/pointer.rs` -/

/-- Source struct `InstructionPointer` (`src/pointer.rs`).  The extra field
`og_pos` records the IP's load-time start position; it backs the
spec-modelled `reset` below and is touched by nothing else. -/
structure InstructionPointer where
  pos : FungeVector
  delta : FungeVector
  offset : FungeVector
  string_mode : Bool
  stacks' : FungeStack (FungeStack Int)
  id : Nat
  dead : Bool
  first_tick : Bool
  og_pos : FungeVector
deriving DecidableEq, Repr

/-- Source fn `InstructionPointer::walk` (`src/pointer.rs`): add the motion
delta to the position (an `i32` addition, hence the wrap) and reduce each
coordinate with `rem_euclid` against the grid's width and height.  `w` and
`h` are the source's `grid.width() as i32` and `grid.height() as i32`. -/
def InstructionPointer.walk (ip : InstructionPointer) (w h : Int) :
    InstructionPointer :=
  { ip with pos := ⟨(wrap32 (ip.pos.x + ip.delta.x)).emod w,
                    (wrap32 (ip.pos.y + ip.delta.y)).emod h⟩ }

/-- Source fn `InstructionPointer::walk_reverse` (`src/pointer.rs`): like
`walk` but subtracting the delta. -/
def InstructionPointer.walk_reverse (ip : InstructionPointer) (w h : Int) :
    InstructionPointer :=
  { ip with pos := ⟨(wrap32 (ip.pos.x - ip.delta.x)).emod w,
                    (wrap32 (ip.pos.y - ip.delta.y)).emod h⟩ }

/-- Source fn `InstructionPointer::pop` (`src/pointer.rs`):
`self.stacks'[0].pop()`. -/
def InstructionPointer.pop (ip : InstructionPointer) :
    Int × InstructionPointer :=
  let (v, t) := (ip.stacks'.get 0).pop
  (v, { ip with stacks' := ip.stacks'.setIdx 0 t })

/-- Source fn `InstructionPointer::push` (`src/pointer.rs`):
`self.stacks'[0].push(n)`. -/
def InstructionPointer.push (ip : InstructionPointer) (n : Int) :
    InstructionPointer :=
  { ip with stacks' := ip.stacks'.setIdx 0 ((ip.stacks'.get 0).push n) }

/-- Source fn `InstructionPointer::pop_char` (`src/pointer.rs`):
`char::from_u32(self.pop() as u32).unwrap_or(' ')`. -/
def InstructionPointer.pop_char (ip : InstructionPointer) :
    Char × InstructionPointer :=
  let (v, ip') := ip.pop
  ((charFromU32 (toU32 v)).getD ' ', ip')

/-- Repeated `FungeStack::pop`: the list of `k` popped values in pop order,
with the remaining stack (models a `(0..n).map(|_| s.pop()).collect()`). -/
def popN {α : Type} [Inhabited α] (s : FungeStack α) :
    Nat → List α × FungeStack α
  | 0 => ([], s)
  | k + 1 =>
    let (v, s') := s.pop
    let (vs, s'') := popN s' k
    (v :: vs, s'')

/-- Repeated `FungeStack::push` of a list of values, first element first
(models a `for val in vs { s.push(val) }` loop). -/
def pushList {α : Type} (s : FungeStack α) (vs : List α) : FungeStack α :=
  vs.foldl (fun t v => t.push v) s

/-- Source match arm `'+'` of `InstructionPointer::command`
(`src/pointer.rs`): pop `x`, pop `y`, push `x.saturating_add(y)`. -/
def cmdAdd (ip : InstructionPointer) : InstructionPointer :=
  let (x, ip1) := ip.pop
  let (y, ip2) := ip1.pop
  ip2.push (satAdd x y)

/-- Source match arm `'-'` of `InstructionPointer::command`
(`src/pointer.rs`): pop `x`, pop `y`, push `y.saturating_sub(x)`. -/
def cmdSub (ip : InstructionPointer) : InstructionPointer :=
  let (x, ip1) := ip.pop
  let (y, ip2) := ip1.pop
  ip2.push (satSub y x)

/-- Source match arm `'*'` of `InstructionPointer::command`
(`src/pointer.rs`): pop `x`, pop `y`, push `x.saturating_mul(y)`. -/
def cmdMul (ip : InstructionPointer) : InstructionPointer :=
  let (x, ip1) := ip.pop
  let (y, ip2) := ip1.pop
  ip2.push (satMul x y)

/-- Source match arm `'/'` of `InstructionPointer::command`
(`src/pointer.rs`): pop `x`, pop `y`, push
`y.checked_div(x).unwrap_or_default()`. -/
def cmdDiv (ip : InstructionPointer) : InstructionPointer :=
  let (x, ip1) := ip.pop
  let (y, ip2) := ip1.pop
  ip2.push ((checkedDiv y x).getD 0)

/-- Source match arm `'%'` of `InstructionPointer::command`
(`src/pointer.rs`): pop `x`, pop `y`, push
`y.checked_rem(x).unwrap_or_default()`. -/
def cmdRem (ip : InstructionPointer) : InstructionPointer :=
  let (x, ip1) := ip.pop
  let (y, ip2) := ip1.pop
  ip2.push ((checkedRem y x).getD 0)

/-- Source match arm `'{'` (Begin Block) of `InstructionPointer::command`
(`src/pointer.rs`): pop `n`, push a fresh stack onto the front of the
stack-of-stacks, transfer `|n|` values (or push `n` zeros on the second
stack when `n` is negative), save the storage offset onto the second stack,
and set the offset to the cell ahead.  Note the source has no
single-stack guard on this arm. -/
def cmdBeginBlock (ip : InstructionPointer) : InstructionPointer :=
  let (n, ip1) := ip.pop
  let stks1 := ip1.stacks'.push_front default
  let stks2 :=
    if n > 0 then
      let (elems, soss) := popN (stks1.get 1) n.toNat
      let stksA := stks1.setIdx 1 soss
      stksA.setIdx 0 (pushList (stksA.get 0) elems.reverse)
    else if n < 0 then
      stks1.setIdx 1 (pushList (stks1.get 1) (List.replicate n.natAbs 0))
    else stks1
  let stks3 := stks2.setIdx 1 (((stks2.get 1).push ip.offset.x).push ip.offset.y)
  { ip1 with stacks' := stks3, offset := ip.pos.add ip.delta }

/-- Source match arm `'}'` (End Block) of `InstructionPointer::command`
(`src/pointer.rs`): with only one stack, just invert the delta; otherwise
pop `n`, restore the storage offset from the second stack (`y` popped
first), transfer values according to the sign of `n`, and drop the front
stack. -/
def cmdEndBlock (ip : InstructionPointer) : InstructionPointer :=
  if ip.stacks'.len = 1 then { ip with delta := ip.delta.invert }
  else
    let (n, ip1) := ip.pop
    let (oy, s1) := (ip1.stacks'.get 1).pop
    let (ox, s1') := s1.pop
    let ip2 := { ip1 with stacks' := ip1.stacks'.setIdx 1 s1',
                          offset := (⟨ox, oy⟩ : FungeVector) }
    let stks :=
      if n > 0 then
        let (elems, toss) := popN (ip2.stacks'.get 0) n.toNat
        let stksA := ip2.stacks'.setIdx 0 toss
        stksA.setIdx 1 (pushList (stksA.get 1) elems.reverse)
      else if n < 0 then
        ip2.stacks'.setIdx 1 ((popN (ip2.stacks'.get 1) n.natAbs).2)
      else ip2.stacks'
    { ip2 with stacks' := (stks.pop_front).2 }

/-! ## `src/direction.rs` and `src/grid.rs` -/

/-- Source enum `Direction` (`src/direction.rs`). -/
inductive Direction where
  | Up
  | Down
  | Right
  | Left
deriving DecidableEq, Repr

/-- Source struct `FungeGrid` (`src/grid.rs`): the 2-d character grid, its
immutable load-time snapshot (`og_chars`, `og_y`), the program counter
(`x`, `y`, `dir`), and the cached dimensions. -/
structure FungeGrid where
  chars : List (List Char)
  og_chars : List (List Char)
  x : Nat
  y : Nat
  dir : Direction
  og_y : Nat
  width : Nat
  height : Nat
deriving DecidableEq, Repr

/-- Length of the longest row, modelling
`chars.iter().max_by_key(|l| l.len()).unwrap().len()`. -/
def maxRowLen (rows : List (List Char)) : Nat :=
  (rows.map List.length).foldr max 0

/-- Source fn `FungeGrid::reset` (`src/grid.rs`): restore the unmodified
grid and return the pc to the start. -/
def FungeGrid.reset (g : FungeGrid) : FungeGrid :=
  { chars := g.og_chars
    og_chars := g.og_chars
    x := 0
    y := g.og_y
    dir := .Right
    og_y := g.og_y
    width := maxRowLen g.og_chars
    height := g.og_chars.length }

/-- Source fn `FungeGrid::char_at` (`src/grid.rs`), the `usize` form:
`self.chars[y][x]` (out-of-range indexing modelled as blank). -/
def FungeGrid.charAt (g : FungeGrid) (x y : Nat) : Char :=
  (g.chars.getD y []).getD x ' '

/-- One iteration of the column-appending loop in
`FungeGrid::set_char_or_expand` (`src/grid.rs`): append a blank to every
row and bump the width. -/
def pushCol (g : FungeGrid) : FungeGrid :=
  { g with chars := g.chars.map (fun row => row ++ [' ']), width := g.width + 1 }

/-- One iteration of the row-appending loop in `FungeGrid::set_char_or_expand`
(`src/grid.rs`): append a blank row and bump the height. -/
def pushRow (g : FungeGrid) : FungeGrid :=
  { g with chars := g.chars ++ [List.replicate g.width ' '], height := g.height + 1 }

/-- Iterated `pushCol`. -/
def pushCols : Nat → FungeGrid → FungeGrid
  | 0, g => g
  | k + 1, g => pushCols k (pushCol g)

/-- Iterated `pushRow`. -/
def pushRows : Nat → FungeGrid → FungeGrid
  | 0, g => g
  | k + 1, g => pushRows k (pushRow g)

/-- The loop `while x >= self.width { .. }` of `FungeGrid::set_char_or_expand`
(`src/grid.rs`): each iteration increases `width` by one, so the loop runs
exactly `x + 1 - width` times. -/
def expandW (g : FungeGrid) (x : Nat) : FungeGrid :=
  pushCols (x + 1 - g.width) g

/-- The loop `while y >= self.height { .. }` of `FungeGrid::set_char_or_expand`
(`src/grid.rs`). -/
def expandH (g : FungeGrid) (y : Nat) : FungeGrid :=
  pushRows (y + 1 - g.height) g

/-- Source fn `FungeGrid::set_char_or_expand` (`src/grid.rs`): grow the grid
until `(x, y)` is in range, then write `self.chars[y][x] = c`. -/
def FungeGrid.set_char_or_expand (g : FungeGrid) (x y : Nat) (c : Char) :
    FungeGrid :=
  let g1 := expandW g x
  let g2 := expandH g1 y
  { g2 with chars := g2.chars.set y ((g2.chars.getD y []).set x c) }

/-- Modelled from the spec: the `FungeVector`-based `char_at` used by the
`g` opcode.  `src/` contains only its callers (`src/pointer.rs`,
`src/befunge.rs`) and an older `usize`-based `char_at`; per the spec,
positions with a negative coordinate read as blank, and in-bounds positions
read the cell. -/
def FungeGrid.charAtV (g : FungeGrid) (pos : FungeVector) : Char :=
  if pos.is_negative then ' '
  else (g.chars.getD pos.y.toNat []).getD pos.x.toNat ' '

/-- Modelled from the spec: the three-argument `set_char(pos, c, expand)`
called by the `p` opcode in `src/befunge.rs` but absent from `src/grid.rs`.
Per the spec, negative-coordinate writes are silently dropped; with the
expansion flag the grid grows as needed (via the source's
`set_char_or_expand`); without it, only in-bounds writes happen and
out-of-bounds writes are rejected. -/
def FungeGrid.setCharV (g : FungeGrid) (pos : FungeVector) (c : Char)
    (expand : Bool) : FungeGrid :=
  if pos.is_negative then g
  else if expand then g.set_char_or_expand pos.x.toNat pos.y.toNat c
  else if pos.x.toNat < g.width ∧ pos.y.toNat < g.height then
    { g with chars :=
        g.chars.set pos.y.toNat ((g.chars.getD pos.y.toNat []).set pos.x.toNat c) }
  else g

/-! ## `src/state.rs` -/

/-- Source enum `EndAt` (`src/state.rs`). -/
inductive EndAt where
  | instant
  | ticks (n : Nat)
  | char (c : Char)
  | manual
  | never
deriving DecidableEq, Repr

/-- Source enum `MoveType` (`src/state.rs`). -/
inductive MoveType where
  | halted
  | forward
  | reverse
deriving DecidableEq, Repr

/-- Source enum `OnTick` (`src/state.rs`). -/
inductive OnTick where
  | nothing
  | instruction
  | stringPush
deriving DecidableEq, Repr

/-- Source struct `FungeState` (`src/state.rs`). -/
structure FungeState where
  ends_at : EndAt
  move_type : MoveType
  action : OnTick
  ticks : Nat
  message : String
deriving DecidableEq, Repr

/-- Source constant `STARTED` (`src/state.rs`):
`FungeState::of(Instant, Halted, Instruction)`. -/
def STARTED : FungeState := ⟨.instant, .halted, .instruction, 0, ""⟩

/-! ## `src/befunge.rs` -/

/-- Modelled from the spec: `InstructionPointer::reset`, which
`Befunge::restart` calls but which is absent from `src/pointer.rs`.  Per the
spec it restores the IP to its initial position, delta and storage offset
with a single base stack (initial delta is east, initial offset the
origin). -/
def InstructionPointer.reset (ip : InstructionPointer) : InstructionPointer :=
  { pos := ip.og_pos
    delta := EAST
    offset := ORIGIN
    string_mode := false
    stacks' := ⟨[⟨[], false, false⟩], false, false⟩
    id := ip.id
    dead := false
    first_tick := true
    og_pos := ip.og_pos }

/-- Source struct `Befunge` (`src/befunge.rs`), restricted to the fields the
engine mutates (the scroll offsets, event handler and argument record are
presentation-layer state; of the arguments only the `paused` flag is read by
`restart`). -/
structure Befunge where
  grid : FungeGrid
  ip : InstructionPointer
  stacks' : FungeStack (FungeStack Int)
  out : String
  state : FungeState
  paused : Bool
  input : String
  args_paused : Bool
deriving DecidableEq, Repr

/-- Source fn `Befunge::restart` (`src/befunge.rs`): reset the grid and the
IP, replace the stack-of-stacks by a single empty stack, clear the output,
return to the `STARTED` state, restore the paused flag from the arguments
and clear pending input. -/
def Befunge.restart (b : Befunge) : Befunge :=
  { grid := b.grid.reset
    ip := b.ip.reset
    stacks' := ⟨[⟨[], false, false⟩], false, false⟩
    out := ""
    state := STARTED
    paused := b.args_paused
    input := ""
    args_paused := b.args_paused }

/-- A grid mutation: the coordinates and character of one
`set_char_or_expand` write (the primitive underlying the `p`/`s` opcodes
and `place`). -/
def applyWrites (ops : List (Nat × Nat × Char)) (g : FungeGrid) : FungeGrid :=
  ops.foldl (fun g op => g.set_char_or_expand op.1 op.2.1 op.2.2) g

/-- A freshly loaded grid, as produced by `FungeGrid::new` (`src/grid.rs`):
the snapshot equals the live cells, the pc sits at the start, and the cached
dimensions match the snapshot. -/
def FungeGrid.Fresh (g : FungeGrid) : Prop :=
  g.chars = g.og_chars ∧ g.x = 0 ∧ g.y = g.og_y ∧ g.dir = .Right ∧
    g.width = maxRowLen g.og_chars ∧ g.height = g.og_chars.length

instance (g : FungeGrid) : Decidable g.Fresh := by
  unfold FungeGrid.Fresh; infer_instance

/-! ## The `lehmer` crate, used by `FungeStack::permute` -/

/-- Modelled from the spec: `Lehmer::from_decimal(p, n)` of the external
`lehmer` crate (its code is not under `src/`; only its caller
`FungeStack::permute` is).  Per the spec the code is the factorial-number-
system representation of `p` with `n` digits, most significant first: digit
`i` (counting from the most significant) is `p / (n-1-i)!` of the remainder
so far. -/
def lehmerDigits (p : Nat) : Nat → List Nat
  | 0 => []
  | m + 1 => p / m.factorial :: lehmerDigits (p % m.factorial) m

/-- Modelled from the spec: `Lehmer::to_permutation` of the external
`lehmer` crate.  Each digit picks (and removes) that position from the
list of still-available indices. -/
def lehmerPick : List Nat → List Nat → List Nat
  | [], _ => []
  | d :: ds, avail => avail.getD d 0 :: lehmerPick ds (avail.eraseIdx d)

/-- The permutation (as a list of indices into the original sequence)
denoted by the Lehmer code `p` for sequences of length `n`:
`Lehmer::from_decimal(p, n).to_permutation()`. -/
def lehmerPerm (p n : Nat) : List Nat :=
  lehmerPick (lehmerDigits p n) (List.range n)

/-- Source fn `FungeStack::permute` (`src/stack.rs`): rearrange the stack
based on a Lehmer code; the element at new position `i` is the element
previously at position `perm[i]`. -/
def FungeStack.permute {α : Type} [Inhabited α] (s : FungeStack α)
    (p : Nat) : FungeStack α :=
  { s with inner :=
      (lehmerPerm p s.inner.length).map (fun idx => s.inner.getD idx default) }

/-- The decimal value of a factorial-base digit string (most significant
digit first); the left inverse of `lehmerDigits`. -/
def codeVal : List Nat → Nat
  | [] => 0
  | d :: ds => d * (ds.length).factorial + codeVal ds

/-- Validity of a factorial-base digit string of length `n`: digit `i`
(most significant first) is at most `n - 1 - i`. -/
def ValidCode : List Nat → Nat → Prop
  | [], 0 => True
  | d :: ds, m + 1 => d < m + 1 ∧ ValidCode ds m
  | _, _ => False

/-! ## Concrete sample values used by witnesses -/

/-- A sample IP with a non-cardinal delta and one empty stack. -/
def sampleIP : InstructionPointer :=
  { pos := ⟨2, 1⟩, delta := ⟨-5, 7⟩, offset := ⟨0, 0⟩, string_mode := false
    stacks' := ⟨[⟨[], false, false⟩], false, false⟩, id := 0, dead := false
    first_tick := true, og_pos := ⟨0, 0⟩ }

/-- A sample IP whose stack-of-stacks holds exactly one (empty) stack. -/
def sampleSingleIP : InstructionPointer :=
  { pos := ORIGIN, delta := EAST, offset := ORIGIN, string_mode := false
    stacks' := ⟨[⟨[], false, false⟩], false, false⟩, id := 0, dead := false
    first_tick := true, og_pos := ORIGIN }

/-- A sample IP whose active stack holds `[7, 0]`, so that the first pop
yields `0` and the second `7`. -/
def sampleZeroTopIP : InstructionPointer :=
  { pos := ORIGIN, delta := EAST, offset := ORIGIN, string_mode := false
    stacks' := ⟨[⟨[7, 0], false, false⟩], false, false⟩, id := 0, dead := false
    first_tick := true, og_pos := ORIGIN }

/-- A sample IP whose active stack holds `[-1]`, so that the first pop
yields the negative value `-1`. -/
def sampleNegTopIP : InstructionPointer :=
  { pos := ORIGIN, delta := EAST, offset := ORIGIN, string_mode := false
    stacks' := ⟨[⟨[-1], false, false⟩], false, false⟩, id := 0, dead := false
    first_tick := true, og_pos := ORIGIN }

/-- A sample stack of three distinct values. -/
def sampleStack : FungeStack Int := ⟨[5, 7, 9], false, false⟩

/-- The width-3, height-1 grid of the `p`-scenario. -/
def gridWidth3 : FungeGrid :=
  { chars := [['p', ' ', ' ']], og_chars := [['p', ' ', ' ']], x := 0, y := 0
    dir := .Right, og_y := 0, width := 3, height := 1 }

/-- A sample run state: `gridWidth3` after one expanding write, a dirty IP,
stack, output, state and input. -/
def sampleBefunge : Befunge :=
  { grid := applyWrites [(5, 0, 'Z')] gridWidth3
    ip := { pos := ⟨4, 0⟩, delta := ⟨0, 1⟩, offset := ⟨2, 2⟩
            string_mode := true, stacks' := ⟨[⟨[9], false, false⟩], false, false⟩
            id := 0, dead := true, first_tick := false, og_pos := ⟨0, 0⟩ }
    stacks' := ⟨[⟨[1, 2], true, false⟩, ⟨[], false, false⟩], false, false⟩
    out := "5 x", state := ⟨.never, .forward, .instruction, 42, ""⟩
    paused := true, input := "12", args_paused := false }

/-! ## Claim C2: pop on an empty stack yields the zero value -/

/-- Claim C2: for every element type with a default value and every setting
of the mode flags (`queue_mode`, `invert_mode`), popping from an empty
`FungeStack` returns the default (zero) value, never signals an error, and
leaves the stack empty; likewise `FungeData::pop` in both modes returns `0`
and leaves the data empty. -/
theorem pop_empty_yields_default :
    (∀ (α : Type) [Inhabited α] (q i : Bool),
      FungeStack.pop (⟨[], q, i⟩ : FungeStack α) = (default, ⟨[], q, i⟩)) ∧
    (∀ m : DataMode, FungeData.pop ⟨[], m⟩ = (0, ⟨[], m⟩)) := by
  constructor
  · intro α _ q i
    cases q <;> simp [FungeStack.pop]
  · intro m
    cases m <;> simp [FungeData.pop]

/-! ## Claim C1: one wrapped step never escapes the grid bounds -/

/-- Claim C1: for every grid with positive width and height and every IP
position and motion delta (negative and non-cardinal deltas included),
advancing one wrapped step with `InstructionPointer::walk` or
`walk_reverse` yields a position whose `x` lies in `[0, width)` and whose
`y` lies in `[0, height)`. -/
theorem walk_stays_in_bounds :
    ∀ (ip : InstructionPointer) (w h : Int), 0 < w → 0 < h →
      (0 ≤ (ip.walk w h).pos.x ∧ (ip.walk w h).pos.x < w ∧
        0 ≤ (ip.walk w h).pos.y ∧ (ip.walk w h).pos.y < h) ∧
      (0 ≤ (ip.walk_reverse w h).pos.x ∧ (ip.walk_reverse w h).pos.x < w ∧
        0 ≤ (ip.walk_reverse w h).pos.y ∧ (ip.walk_reverse w h).pos.y < h) := by
  intro ip w h hw hh
  refine ⟨⟨?_, ?_, ?_, ?_⟩, ?_, ?_, ?_, ?_⟩ <;>
    simp only [InstructionPointer.walk, InstructionPointer.walk_reverse] <;>
    first
      | exact Int.emod_nonneg _ (by omega)
      | exact Int.emod_lt_of_pos _ (by omega)

/-- Witness for C1: the bounds hold at a concrete IP with delta `(-5, 7)`
on a 3-by-2 grid. -/
theorem walk_stays_in_bounds_witness :
    (0 : Int) < 3 ∧ (0 : Int) < 2 ∧
      ((0 ≤ (sampleIP.walk 3 2).pos.x ∧ (sampleIP.walk 3 2).pos.x < 3 ∧
        0 ≤ (sampleIP.walk 3 2).pos.y ∧ (sampleIP.walk 3 2).pos.y < 2) ∧
       (0 ≤ (sampleIP.walk_reverse 3 2).pos.x ∧
        (sampleIP.walk_reverse 3 2).pos.x < 3 ∧
        0 ≤ (sampleIP.walk_reverse 3 2).pos.y ∧
        (sampleIP.walk_reverse 3 2).pos.y < 2)) :=
  ⟨by decide, by decide, walk_stays_in_bounds sampleIP 3 2 (by decide) (by decide)⟩

/-! ## Claim C4: `+`, `-`, `*` pop `x` then `y` and saturate -/

/-- Claim C4: the opcodes `+`, `-` and `*` each pop `x` first, then `y`,
and push the result with the second-popped value `y` as the left operand,
using saturating 32-bit arithmetic: the pushed value is the exact
mathematical result clamped at `i32::MIN` / `i32::MAX`, never wrapped. -/
theorem arith_pops_and_saturates :
    (∀ ip : InstructionPointer,
      cmdAdd ip = (ip.pop.2.pop.2).push (satAdd ip.pop.2.pop.1 ip.pop.1) ∧
      cmdSub ip = (ip.pop.2.pop.2).push (satSub ip.pop.2.pop.1 ip.pop.1) ∧
      cmdMul ip = (ip.pop.2.pop.2).push (satMul ip.pop.2.pop.1 ip.pop.1)) ∧
    (∀ y x : Int,
      satAdd y x =
        (if y + x > I32_MAX then I32_MAX
          else if y + x < I32_MIN then I32_MIN else y + x) ∧
      satSub y x =
        (if y - x > I32_MAX then I32_MAX
          else if y - x < I32_MIN then I32_MIN else y - x) ∧
      satMul y x =
        (if y * x > I32_MAX then I32_MAX
          else if y * x < I32_MIN then I32_MIN else y * x)) := by
  constructor
  · intro ip
    refine ⟨?_, rfl, ?_⟩
    · simp only [cmdAdd, satAdd]
      rw [Int.add_comm]
    · simp only [cmdMul, satMul]
      rw [Int.mul_comm]
  · intro y x
    refine ⟨?_, ?_, ?_⟩ <;>
      simp only [satAdd, satSub, satMul, I32_MIN, I32_MAX] <;>
      split_ifs <;> omega

/-! ## Claim C5: `/` and `%` by zero push `0`, never fault -/

/-- Claim C5: the opcodes `/` and `%` each pop `x` first, then `y`; when
`x` is `0` they push `0` instead of faulting, and in every case the result
is a defined in-language value (the checked operation's result, with `0`
for the undefined cases), never a host-level fault. -/
theorem div_rem_by_zero_pushes_zero :
    ∀ ip : InstructionPointer,
      cmdDiv ip = (ip.pop.2.pop.2).push ((checkedDiv ip.pop.2.pop.1 ip.pop.1).getD 0) ∧
      cmdRem ip = (ip.pop.2.pop.2).push ((checkedRem ip.pop.2.pop.1 ip.pop.1).getD 0) ∧
      (∀ y x : Int,
        (checkedDiv y x).getD 0 =
          (if x = 0 then 0
            else if y = I32_MIN ∧ x = -1 then 0 else y.tdiv x) ∧
        (checkedRem y x).getD 0 =
          (if x = 0 then 0
            else if y = I32_MIN ∧ x = -1 then 0 else y.tmod x)) := by
  intro ip
  refine ⟨rfl, rfl, ?_⟩
  intro y x
  constructor <;>
    · simp only [checkedDiv, checkedRem]
      split_ifs <;> simp_all

/-- Witness for C5: with `[7, 0]` on the stack (`x = 0` popped first,
`y = 7` second), both checked operations yield `0`. -/
theorem div_rem_by_zero_witness :
    cmdDiv sampleZeroTopIP =
      (sampleZeroTopIP.pop.2.pop.2).push
        ((checkedDiv sampleZeroTopIP.pop.2.pop.1 sampleZeroTopIP.pop.1).getD 0) ∧
    (checkedDiv 7 0).getD 0 = 0 ∧ (checkedRem 7 0).getD 0 = 0 :=
  ⟨(div_rem_by_zero_pushes_zero sampleZeroTopIP).1, by decide, by decide⟩

/-! ## Claim C6: negative-coordinate reads are blank -/

/-- Claim C6: for every position with a negative `x` or `y` coordinate,
reading the grid with `char_at` (as used by the `g` opcode) returns the
blank space character rather than erroring or wrapping. -/
theorem char_at_negative_is_blank :
    ∀ (g : FungeGrid) (pos : FungeVector), pos.is_negative →
      g.charAtV pos = ' ' := by
  intro g pos h
  simp [FungeGrid.charAtV, h]

/-- Witness for C6 at the concrete position `(-3, 0)`. -/
theorem char_at_negative_is_blank_witness :
    (FungeVector.is_negative ⟨-3, 0⟩ = true) ∧ gridWidth3.charAtV ⟨-3, 0⟩ = ' ' :=
  ⟨by decide, char_at_negative_is_blank gridWidth3 ⟨-3, 0⟩ (by decide)⟩

/-! ## Claim C10: invalid scalar values decode to a space -/

/-- Claim C10: for every popped `i32` value whose reinterpretation as `u32`
is not a Unicode scalar value (surrogates `0xD800`-`0xDFFF` or values above
`0x10FFFF` — where every negative value casts above `0x10FFFF`),
`pop_char` returns the space character instead of failing. -/
theorem pop_char_invalid_is_space :
    (∀ v : Int,
      (0xD800 ≤ toU32 v ∧ toU32 v ≤ 0xDFFF) ∨ 0x10FFFF < toU32 v →
        (charFromU32 (toU32 v)).getD ' ' = ' ') ∧
    (∀ v : Int, I32_MIN ≤ v → v < 0 → 0x10FFFF < toU32 v) ∧
    (∀ ip : InstructionPointer,
      ((0xD800 ≤ toU32 ip.pop.1 ∧ toU32 ip.pop.1 ≤ 0xDFFF) ∨
          0x10FFFF < toU32 ip.pop.1) →
        ip.pop_char = (' ', ip.pop.2)) := by
  have hinv : ∀ v : Int,
      (0xD800 ≤ toU32 v ∧ toU32 v ≤ 0xDFFF) ∨ 0x10FFFF < toU32 v →
        (charFromU32 (toU32 v)).getD ' ' = ' ' := by
    intro v hv
    have : ¬ (toU32 v).isValidChar := by
      unfold Nat.isValidChar
      omega
    simp [charFromU32, this]
  refine ⟨hinv, ?_, ?_⟩
  · intro v h1 h2
    simp only [toU32, I32_MIN] at *
    omega
  · intro ip hv
    simp only [InstructionPointer.pop_char, hinv ip.pop.1 hv]

/-- Witness for C10: popping `-1` (which casts to `0xFFFFFFFF`, above
`0x10FFFF`) yields the space character. -/
theorem pop_char_invalid_is_space_witness :
    (0x10FFFF < toU32 (-1) ∧ (charFromU32 (toU32 (-1))).getD ' ' = ' ') ∧
    (I32_MIN ≤ -1 ∧ (-1 : Int) < 0) ∧
    sampleNegTopIP.pop_char = (' ', sampleNegTopIP.pop.2) :=
  ⟨⟨by decide, pop_char_invalid_is_space.1 (-1) (Or.inr (by decide))⟩,
   ⟨by decide, by decide⟩,
   pop_char_invalid_is_space.2.2 sampleNegTopIP (Or.inr (by decide))⟩

/-! ## Claim C7: block opcodes at the base scope -/

/-- Counterexample to C7 as stated: with exactly one stack, executing `{`
does not reverse the delta and does not leave the stack-of-stacks depth
unchanged — the source's `'{'` arm has no single-stack guard, so it pushes
a new stack (depth 2) and leaves the delta alone. -/
theorem begin_block_single_stack_counterexample :
    sampleSingleIP.stacks'.len = 1 ∧
    (cmdBeginBlock sampleSingleIP).stacks'.len = 2 ∧
    (cmdBeginBlock sampleSingleIP).delta = sampleSingleIP.delta ∧
    (cmdBeginBlock sampleSingleIP).delta ≠ sampleSingleIP.delta.invert ∧
    (cmdBeginBlock sampleSingleIP).stacks' ≠ sampleSingleIP.stacks' ∧
    (cmdBeginBlock sampleSingleIP).offset ≠ sampleSingleIP.offset := by
  decide

/-- Claim C7 (amended): when the stack-of-stacks contains exactly one
stack, executing `}` reverses the IP's delta by 180 degrees and makes no
other change (depth, storage offset and stack contents untouched); `{`, by
contrast, is not guarded and proceeds to open a new scope. -/
theorem end_block_single_stack_reflects :
    ∀ ip : InstructionPointer, ip.stacks'.len = 1 →
      cmdEndBlock ip = { ip with delta := ip.delta.invert } := by
  intro ip h
  simp [cmdEndBlock, h]

/-- Witness for the amended C7 at a concrete single-stack IP. -/
theorem end_block_single_stack_reflects_witness :
    sampleSingleIP.stacks'.len = 1 ∧
    cmdEndBlock sampleSingleIP =
      { sampleSingleIP with delta := sampleSingleIP.delta.invert } :=
  ⟨by decide, end_block_single_stack_reflects sampleSingleIP (by decide)⟩

/-! ## Claim C8: the `p`-write expansion scenario -/

/-- Claim C8: on a width-3, height-1 grid, a `p` write targeting `(5, 0)`
with expansion enabled leaves a grid of width at least 6 in which
`char_at((5,0))` is the written character; with expansion disabled the
write is rejected and the grid is left entirely unchanged. -/
theorem put_expand_scenario :
    ∀ c : Char,
      ((gridWidth3.setCharV ⟨5, 0⟩ c true).width ≥ 6 ∧
        (gridWidth3.setCharV ⟨5, 0⟩ c true).charAtV ⟨5, 0⟩ = c) ∧
      gridWidth3.setCharV ⟨5, 0⟩ c false = gridWidth3 := by
  intro c
  refine ⟨⟨?_, ?_⟩, ?_⟩ <;> rfl

/-! ## Claim C9: reset/restart round trip -/

/-- Column expansion never touches the load-time snapshot. -/
theorem pushCols_og (k : Nat) (g : FungeGrid) :
    (pushCols k g).og_chars = g.og_chars ∧ (pushCols k g).og_y = g.og_y := by
  induction k generalizing g with
  | zero => exact ⟨rfl, rfl⟩
  | succ k ih => simpa [pushCols, pushCol] using ih (pushCol g)

/-- Row expansion never touches the load-time snapshot. -/
theorem pushRows_og (k : Nat) (g : FungeGrid) :
    (pushRows k g).og_chars = g.og_chars ∧ (pushRows k g).og_y = g.og_y := by
  induction k generalizing g with
  | zero => exact ⟨rfl, rfl⟩
  | succ k ih => simpa [pushRows, pushRow] using ih (pushRow g)

/-- A `set_char_or_expand` write never touches the load-time snapshot. -/
theorem set_char_or_expand_og (g : FungeGrid) (x y : Nat) (c : Char) :
    (g.set_char_or_expand x y c).og_chars = g.og_chars ∧
      (g.set_char_or_expand x y c).og_y = g.og_y := by
  have h1 := pushCols_og (x + 1 - g.width) g
  have h2 := pushRows_og (y + 1 - (expandW g x).height) (expandW g x)
  simp only [FungeGrid.set_char_or_expand, expandW, expandH] at *
  exact ⟨by rw [h2.1, h1.1], by rw [h2.2, h1.2]⟩

/-- No sequence of grid writes touches the load-time snapshot. -/
theorem applyWrites_og (ops : List (Nat × Nat × Char)) :
    ∀ g : FungeGrid, (applyWrites ops g).og_chars = g.og_chars ∧
      (applyWrites ops g).og_y = g.og_y := by
  induction ops with
  | nil => exact fun g => ⟨rfl, rfl⟩
  | cons op ops ih =>
    intro g
    have h := set_char_or_expand_og g op.1 op.2.1 op.2.2
    have h2 := ih (g.set_char_or_expand op.1 op.2.1 op.2.2)
    simp only [applyWrites, List.foldl_cons] at *
    exact ⟨h2.1.trans h.1, h2.2.trans h.2⟩

/-- Resetting any grid whose snapshot fields agree with a freshly loaded
grid yields exactly that fresh grid. -/
theorem reset_of_fresh (g0 g : FungeGrid) (hf : g0.Fresh)
    (h1 : g.og_chars = g0.og_chars) (h2 : g.og_y = g0.og_y) :
    g.reset = g0 := by
  obtain ⟨f1, f2, f3, f4, f5, f6⟩ := hf
  cases g0
  simp_all [FungeGrid.reset]

/-- Claim C9: after any sequence of grid writes (and whatever the executed
instructions did to the IP, stacks, output, state and input), `restart`
restores `char_at` at every position to its value immediately after load,
restores the original width and height, returns the IP to its initial
position, delta and storage offset, and leaves a single empty base stack,
an empty output buffer and the started state. -/
theorem restart_round_trip :
    ∀ (b : Befunge) (g0 : FungeGrid) (ops : List (Nat × Nat × Char)),
      g0.Fresh → b.grid = applyWrites ops g0 →
      b.restart.grid = g0 ∧
      (∀ x y : Nat, b.restart.grid.charAt x y = g0.charAt x y) ∧
      b.restart.grid.width = g0.width ∧ b.restart.grid.height = g0.height ∧
      b.restart.ip.pos = b.ip.og_pos ∧ b.restart.ip.delta = EAST ∧
      b.restart.ip.offset = ORIGIN ∧
      b.restart.stacks' = ⟨[⟨[], false, false⟩], false, false⟩ ∧
      b.restart.out = "" ∧ b.restart.state = STARTED ∧ b.restart.input = "" := by
  intro b g0 ops hf hg
  have hog := applyWrites_og ops g0
  have hreset : b.restart.grid = g0 := by
    show b.grid.reset = g0
    rw [hg]
    exact reset_of_fresh g0 _ hf hog.1 hog.2
  exact ⟨hreset, fun x y => by rw [hreset], by rw [hreset], by rw [hreset],
    rfl, rfl, rfl, rfl, rfl, rfl, rfl⟩

/-- Witness for C9 at a concrete dirtied run state over the width-3 grid. -/
theorem restart_round_trip_witness :
    gridWidth3.Fresh ∧ sampleBefunge.grid = applyWrites [(5, 0, 'Z')] gridWidth3 ∧
    (sampleBefunge.restart.grid = gridWidth3 ∧
      (∀ x y : Nat,
        sampleBefunge.restart.grid.charAt x y = gridWidth3.charAt x y) ∧
      sampleBefunge.restart.grid.width = gridWidth3.width ∧
      sampleBefunge.restart.grid.height = gridWidth3.height ∧
      sampleBefunge.restart.ip.pos = sampleBefunge.ip.og_pos ∧
      sampleBefunge.restart.ip.delta = EAST ∧
      sampleBefunge.restart.ip.offset = ORIGIN ∧
      sampleBefunge.restart.stacks' = ⟨[⟨[], false, false⟩], false, false⟩ ∧
      sampleBefunge.restart.out = "" ∧ sampleBefunge.restart.state = STARTED ∧
      sampleBefunge.restart.input = "") :=
  ⟨by decide, rfl,
    restart_round_trip sampleBefunge gridWidth3 [(5, 0, 'Z')] (by decide) rfl⟩

/-! ## Claim C3: `permute` enumerates permutations by Lehmer code -/

/-- A Lehmer digit string has as many digits as requested. -/
theorem lehmerDigits_length (p n : Nat) : (lehmerDigits p n).length = n := by
  induction n generalizing p with
  | zero => rfl
  | succ m ih => simp [lehmerDigits, ih]

/-- Codes below `n!` produce valid digit strings. -/
theorem lehmerDigits_valid : ∀ {n p : Nat}, p < n.factorial →
    ValidCode (lehmerDigits p n) n := by
  intro n
  induction n with
  | zero => intro p _; exact trivial
  | succ m ih =>
    intro p hp
    have h1 : p / m.factorial < m + 1 := by
      apply Nat.div_lt_of_lt_mul
      rw [Nat.factorial_succ, Nat.mul_comm] at hp
      exact hp
    exact ⟨h1, ih (Nat.mod_lt _ m.factorial_pos)⟩

/-- A valid digit string has exactly `n` digits. -/
theorem validCode_length : ∀ {ds : List Nat} {n : Nat},
    ValidCode ds n → ds.length = n := by
  intro ds
  induction ds with
  | nil =>
    intro n h
    cases n with
    | zero => rfl
    | succ m => exact False.elim h
  | cons d ds ih =>
    intro n h
    cases n with
    | zero => exact False.elim h
    | succ m => simpa using ih h.2

/-- The decimal value of a valid digit string is below `n!`. -/
theorem codeVal_lt : ∀ {ds : List Nat} {n : Nat},
    ValidCode ds n → codeVal ds < n.factorial := by
  intro ds
  induction ds with
  | nil =>
    intro n h
    cases n with
    | zero => decide
    | succ m => exact False.elim h
  | cons d ds ih =>
    intro n h
    cases n with
    | zero => exact False.elim h
    | succ m =>
      obtain ⟨hd, hds⟩ := h
      have hlen : ds.length = m := validCode_length hds
      have hlt : codeVal ds < m.factorial := ih hds
      show d * (ds.length).factorial + codeVal ds < (m + 1).factorial
      rw [hlen, Nat.factorial_succ]
      calc d * m.factorial + codeVal ds
          < d * m.factorial + m.factorial := by omega
        _ = (d + 1) * m.factorial := by ring
        _ ≤ (m + 1) * m.factorial := by
            exact Nat.mul_le_mul_right _ (by omega)

/-- Digit extraction inverts `codeVal` on codes below `n!`. -/
theorem codeVal_lehmerDigits : ∀ {n p : Nat}, p < n.factorial →
    codeVal (lehmerDigits p n) = p := by
  intro n
  induction n with
  | zero =>
    intro p hp
    simp only [lehmerDigits, codeVal]
    simp [Nat.factorial] at hp
    omega
  | succ m ih =>
    intro p hp
    show p / m.factorial * (lehmerDigits (p % m.factorial) m).length.factorial +
        codeVal (lehmerDigits (p % m.factorial) m) = p
    rw [lehmerDigits_length, ih (Nat.mod_lt _ m.factorial_pos),
      Nat.mul_comm (p / m.factorial) m.factorial]
    exact Nat.div_add_mod p m.factorial

/-- `codeVal` inverts digit extraction on valid digit strings. -/
theorem lehmerDigits_codeVal : ∀ {ds : List Nat} {n : Nat},
    ValidCode ds n → lehmerDigits (codeVal ds) n = ds := by
  intro ds
  induction ds with
  | nil =>
    intro n h
    cases n with
    | zero => rfl
    | succ m => exact False.elim h
  | cons d ds ih =>
    intro n h
    cases n with
    | zero => exact False.elim h
    | succ m =>
      obtain ⟨hd, hds⟩ := h
      have hlen : ds.length = m := validCode_length hds
      have hr : codeVal ds < m.factorial := codeVal_lt hds
      show codeVal (d :: ds) / m.factorial ::
          lehmerDigits (codeVal (d :: ds) % m.factorial) m = d :: ds
      have hv : codeVal (d :: ds) = codeVal ds + m.factorial * d := by
        show d * (ds.length).factorial + codeVal ds = codeVal ds + m.factorial * d
        rw [hlen]; ring
      rw [hv, Nat.add_mul_div_left _ _ m.factorial_pos, Nat.div_eq_of_lt hr,
        Nat.add_mul_mod_self_left, Nat.mod_eq_of_lt hr, Nat.zero_add, ih hds]

/-- Removing index `d` and consing the removed element back is a
permutation of the original list. -/
theorem perm_getD_cons_eraseIdx {α : Type} (dflt : α) :
    ∀ (l : List α) (d : Nat), d < l.length →
      l.Perm (l.getD d dflt :: l.eraseIdx d) := by
  intro l
  induction l with
  | nil => intro d h; simp at h
  | cons a t ih =>
    intro d h
    cases d with
    | zero => simp
    | succ d =>
      have hd : d < t.length := by simpa using h
      simp only [List.getD_cons_succ, List.eraseIdx_cons_succ]
      exact ((ih d hd).cons a).trans (List.Perm.swap _ _ _)

/-- Picking along a valid digit string permutes the available list. -/
theorem lehmerPick_perm : ∀ {ds avail : List Nat},
    ValidCode ds avail.length → (lehmerPick ds avail).Perm avail := by
  intro ds
  induction ds with
  | nil =>
    intro avail h
    have hz : avail.length = 0 := by
      cases hl : avail.length with
      | zero => rfl
      | succ m => rw [hl] at h; exact False.elim h
    rw [List.length_eq_zero.mp hz]
    exact List.Perm.refl _
  | cons d ds ih =>
    intro avail h
    cases hl : avail.length with
    | zero => rw [hl] at h; exact False.elim h
    | succ m =>
      rw [hl] at h
      obtain ⟨hd, hds⟩ := h
      have hdl : d < avail.length := by omega
      have hel : (avail.eraseIdx d).length = m := by
        rw [List.length_eraseIdx, if_pos hdl, hl]
        omega
      have hpick : (lehmerPick ds (avail.eraseIdx d)).Perm (avail.eraseIdx d) :=
        ih (by rw [hel]; exact hds)
      show (avail.getD d 0 :: lehmerPick ds (avail.eraseIdx d)).Perm avail
      exact (hpick.cons _).trans (perm_getD_cons_eraseIdx 0 avail d hdl).symm

/-- On a duplicate-free list, `getD` at in-range indices is injective. -/
theorem getD_inj_of_nodup {α : Type} (dflt : α) {l : List α} (h : l.Nodup) :
    ∀ {i j : Nat}, i < l.length → j < l.length →
      l.getD i dflt = l.getD j dflt → i = j := by
  intro i j hi hj he
  rw [List.getD_eq_getElem l dflt hi, List.getD_eq_getElem l dflt hj] at he
  exact (List.Nodup.getElem_inj_iff h).mp he

/-- Picking from a duplicate-free list is injective in the digit string. -/
theorem lehmerPick_inj : ∀ {ds ds' avail : List Nat}, avail.Nodup →
    ValidCode ds avail.length → ValidCode ds' avail.length →
    lehmerPick ds avail = lehmerPick ds' avail → ds = ds' := by
  intro ds
  induction ds with
  | nil =>
    intro ds' avail _ h h' _
    cases hl : avail.length with
    | succ m => rw [hl] at h; exact False.elim h
    | zero =>
      rw [hl] at h'
      cases ds' with
      | nil => rfl
      | cons d' t' => exact False.elim h'
  | cons d ds ih =>
    intro ds' avail hnd h h' he
    cases hl : avail.length with
    | zero => rw [hl] at h; exact False.elim h
    | succ m =>
      rw [hl] at h h'
      cases ds' with
      | nil => exact False.elim h'
      | cons d' ds'' =>
        obtain ⟨hd, hds⟩ := h
        obtain ⟨hd', hds'⟩ := h'
        have hdl : d < avail.length := by omega
        have hdl' : d' < avail.length := by omega
        simp only [lehmerPick, List.cons.injEq] at he
        obtain ⟨he1, he2⟩ := he
        have hdd : d = d' := getD_inj_of_nodup 0 hnd hdl hdl' he1
        subst hdd
        have hel : (avail.eraseIdx d).length = m := by
          rw [List.length_eraseIdx, if_pos hdl, hl]
          omega
        have := ih (List.Nodup.sublist (List.eraseIdx_sublist avail d) hnd)
          (by rw [hel]; exact hds) (by rw [hel]; exact hds') he2
        rw [this]

/-- Every rearrangement of the available list is picked by some valid digit
string. -/
theorem lehmerPick_surj : ∀ {l avail : List Nat}, l.Perm avail →
    ∃ ds, ValidCode ds avail.length ∧ lehmerPick ds avail = l := by
  intro l
  induction l with
  | nil =>
    intro avail h
    have hz : avail = [] := h.symm.eq_nil
    subst hz
    exact ⟨[], trivial, rfl⟩
  | cons x rest ih =>
    intro avail h
    have hx : x ∈ avail := h.mem_iff.mp (List.mem_cons_self x rest)
    have hdl : avail.indexOf x < avail.length := List.indexOf_lt_length.mpr hx
    have hgd : avail.getD (avail.indexOf x) 0 = x := by
      rw [List.getD_eq_getElem _ _ hdl]
      exact List.getElem_indexOf hdl
    have herase : avail.eraseIdx (avail.indexOf x) = avail.erase x :=
      List.eraseIdx_indexOf_eq_erase x avail
    have hrest : rest.Perm (avail.erase x) :=
      (h.trans (List.perm_cons_erase hx)).cons_inv
    obtain ⟨ds, hval, hpick⟩ := ih hrest
    have hlen : (avail.erase x).length = avail.length - 1 :=
      List.length_erase_of_mem hx
    have hlen2 : avail.length = (avail.erase x).length + 1 := by omega
    refine ⟨avail.indexOf x :: ds, ?_, ?_⟩
    · rw [hlen2]
      exact ⟨by omega, hval⟩
    · show avail.getD (avail.indexOf x) 0 ::
          lehmerPick ds (avail.eraseIdx (avail.indexOf x)) = x :: rest
      rw [hgd, herase, hpick]

/-- Reading a list back through `getD` over `range` reproduces it. -/
theorem map_getD_range {α : Type} (dflt : α) :
    ∀ l : List α, (List.range l.length).map (fun i => l.getD i dflt) = l := by
  intro l
  induction l with
  | nil => rfl
  | cons a t ih =>
    show (List.range (t.length + 1)).map (fun i => (a :: t).getD i dflt) = a :: t
    rw [List.range_succ_eq_map, List.map_cons, List.map_map]
    have hc : ((fun i => (a :: t).getD i dflt) ∘ Nat.succ) =
        fun i => t.getD i dflt := by
      funext i
      simp [Function.comp]
    rw [show (a :: t).getD 0 dflt = a from rfl, hc, ih]

/-- On a duplicate-free list, mapping each element to its index gives
exactly `range`. -/
theorem map_indexOf_self {α : Type} [DecidableEq α] : ∀ {l : List α}, l.Nodup →
    l.map (fun a => l.indexOf a) = List.range l.length := by
  intro l
  induction l with
  | nil => intro _; rfl
  | cons a t ih =>
    intro hnd
    rw [List.nodup_cons] at hnd
    obtain ⟨hna, hndt⟩ := hnd
    show List.map (fun b => (a :: t).indexOf b) (a :: t) =
        List.range (t.length + 1)
    rw [List.range_succ_eq_map, List.map_cons]
    congr 1
    · simp
    · rw [← ih hndt, List.map_map]
      apply List.map_congr_left
      intro b hb
      have hba : a ≠ b := fun heq => hna (heq ▸ hb)
      show (a :: t).indexOf b = ((Nat.succ ∘ fun c => t.indexOf c) b)
      exact List.indexOf_cons_ne t hba

/-- Lists of below-`n` naturals on which an `n`-injective map agrees are
equal. -/
theorem map_inj_on_lt {β : Type} (f : Nat → β) (n : Nat)
    (hf : ∀ i < n, ∀ j < n, f i = f j → i = j) :
    ∀ l1 l2 : List Nat, (∀ a ∈ l1, a < n) → (∀ a ∈ l2, a < n) →
      l1.map f = l2.map f → l1 = l2 := by
  intro l1
  induction l1 with
  | nil =>
    intro l2 _ _ h
    cases l2 with
    | nil => rfl
    | cons b t => simp at h
  | cons a t ih =>
    intro l2 h1 h2 he
    cases l2 with
    | nil => simp at he
    | cons b t2 =>
      simp only [List.map_cons, List.cons.injEq] at he
      obtain ⟨hab, ht⟩ := he
      have hba : a = b := hf a (h1 a (by simp)) b (h2 b (by simp)) hab
      subst hba
      rw [ih t2 (fun c hc => h1 c (by simp [hc])) (fun c hc => h2 c (by simp [hc])) ht]

/-- Claim C3: for a fixed stack length `len`, `permute` over codes
`0 .. len!-1` is a bijection on orderings of the stack's elements: the
mapping is the deterministic factorial-number-system (Lehmer) enumeration,
every resulting stack is a rearrangement containing exactly the original
elements, distinct codes produce distinct orderings (for distinct
elements), and every ordering occurs. -/
theorem permute_lehmer_bijection {α : Type} [Inhabited α] [DecidableEq α]
    (s : FungeStack α) :
    (∀ p : Nat, (s.permute p).inner =
      (lehmerPerm p s.inner.length).map (fun i => s.inner.getD i default)) ∧
    (∀ p : Nat, p < s.inner.length.factorial →
      ((s.permute p).inner).Perm s.inner ∧
      (s.permute p).queue_mode = s.queue_mode ∧
      (s.permute p).invert_mode = s.invert_mode) ∧
    (∀ p q : Nat, p < s.inner.length.factorial → q < s.inner.length.factorial →
      s.inner.Nodup → s.permute p = s.permute q → p = q) ∧
    (∀ l : List α, s.inner.Nodup → l.Perm s.inner →
      ∃ p : Nat, p < s.inner.length.factorial ∧ (s.permute p).inner = l) := by
  have hP : ∀ p : Nat, p < s.inner.length.factorial →
      (lehmerPerm p s.inner.length).Perm (List.range s.inner.length) := by
    intro p hp
    exact lehmerPick_perm (by rw [List.length_range]; exact lehmerDigits_valid hp)
  refine ⟨fun p => rfl, ?_, ?_, ?_⟩
  · intro p hp
    refine ⟨?_, rfl, rfl⟩
    show ((lehmerPerm p s.inner.length).map
      (fun i => s.inner.getD i default)).Perm s.inner
    have h2 : ((List.range s.inner.length).map
        (fun i => s.inner.getD i default)).Perm s.inner := by
      rw [map_getD_range]
    exact ((hP p hp).map _).trans h2
  · intro p q hp hq hnd he
    have hinner : (lehmerPerm p s.inner.length).map
        (fun i => s.inner.getD i default) =
        (lehmerPerm q s.inner.length).map (fun i => s.inner.getD i default) :=
      congrArg FungeStack.inner he
    have hmp : ∀ a ∈ lehmerPerm p s.inner.length, a < s.inner.length :=
      fun a ha => List.mem_range.mp ((hP p hp).mem_iff.mp ha)
    have hmq : ∀ a ∈ lehmerPerm q s.inner.length, a < s.inner.length :=
      fun a ha => List.mem_range.mp ((hP q hq).mem_iff.mp ha)
    have hPeq : lehmerPerm p s.inner.length = lehmerPerm q s.inner.length :=
      map_inj_on_lt _ s.inner.length
        (fun i hi j hj => getD_inj_of_nodup default hnd hi hj)
        _ _ hmp hmq hinner
    have hdig : lehmerDigits p s.inner.length = lehmerDigits q s.inner.length :=
      lehmerPick_inj (List.nodup_range _)
        (by rw [List.length_range]; exact lehmerDigits_valid hp)
        (by rw [List.length_range]; exact lehmerDigits_valid hq) hPeq
    have hval : codeVal (lehmerDigits p s.inner.length) =
        codeVal (lehmerDigits q s.inner.length) := by rw [hdig]
    rwa [codeVal_lehmerDigits hp, codeVal_lehmerDigits hq] at hval
  · intro l hnd hl
    have hidx : (l.map fun a => s.inner.indexOf a).Perm
        (List.range s.inner.length) := by
      have h1 := hl.map (fun a => s.inner.indexOf a)
      rw [map_indexOf_self hnd] at h1
      exact h1
    obtain ⟨ds, hval, hpick⟩ := lehmerPick_surj hidx
    rw [List.length_range] at hval
    refine ⟨codeVal ds, codeVal_lt hval, ?_⟩
    show (lehmerPerm (codeVal ds) s.inner.length).map
      (fun i => s.inner.getD i default) = l
    unfold lehmerPerm
    rw [lehmerDigits_codeVal hval, hpick, List.map_map]
    have hpt : ∀ a ∈ l, ((fun i => s.inner.getD i default) ∘
        fun a => s.inner.indexOf a) a = id a := by
      intro a ha
      have hmem : a ∈ s.inner := hl.mem_iff.mp ha
      have hlt : s.inner.indexOf a < s.inner.length :=
        List.indexOf_lt_length.mpr hmem
      show s.inner.getD (s.inner.indexOf a) default = a
      rw [List.getD_eq_getElem _ _ hlt]
      exact List.getElem_indexOf hlt
    rw [List.map_congr_left hpt, List.map_id]

/-- Witness for C3 on the stack `[5, 7, 9]`: code 4 yields a rearrangement,
equal codes yield equal codes, and the ordering `[9, 5, 7]` is reached by
some code below `3! = 6`. -/
theorem permute_lehmer_bijection_witness :
    ((sampleStack.permute 4).inner.Perm sampleStack.inner ∧
      (sampleStack.permute 4).queue_mode = sampleStack.queue_mode ∧
      (sampleStack.permute 4).invert_mode = sampleStack.invert_mode) ∧
    (2 : Nat) = 2 ∧
    (∃ p : Nat, p < sampleStack.inner.length.factorial ∧
      (sampleStack.permute p).inner = [9, 5, 7]) :=
  ⟨(permute_lehmer_bijection sampleStack).2.1 4 (by decide),
   (permute_lehmer_bijection sampleStack).2.2.1 2 2 (by decide) (by decide)
     (by decide) rfl,
   (permute_lehmer_bijection sampleStack).2.2.2 [9, 5, 7] (by decide) (by decide)⟩

end Refunge
